import Mathlib

/-!
Verification of the dialect-aware migration filesystem resolver of
go-persistence-bun (dialect_migrations.go).

Modelling conventions:
* Go strings are modelled as Lean `String` and manipulated through their
  character lists; all inputs of interest are ASCII, so `strings.ToLower`
  and `strings.TrimSpace` are modelled on the ASCII range.
* A Go map is modelled as an association list; iterating a Go map yields
  its entries in an unspecified order, which we model by parametrising the
  iteration over an enumeration list (a permutation of the table).
* The source tree (`fs.FS`) is modelled as a flat list of
  (slash-separated path, read outcome) pairs, matching `fstest.MapFS` and
  `embed.FS`, whose directory entries enumerate in sorted order;
  `fs.WalkDir` therefore visits files in sorted path order.
* Filesystem errors are modelled on file reads; `FsError.notExist` marks
  errors satisfying `errors.Is(err, fs.ErrNotExist)`.
-/

set_option maxRecDepth 8000

/-- The ASCII white-space characters recognised by Go's `unicode.IsSpace`
(space, tab, newline, carriage return, vertical tab, form feed). -/
def isSpaceGo (c : Char) : Bool :=
  decide (c.toNat = 32 ∨ c.toNat = 9 ∨ c.toNat = 10 ∨ c.toNat = 13 ∨
    c.toNat = 11 ∨ c.toNat = 12)

/-- Go `strings.ToLower` on a single character, ASCII range. -/
def charToLowerGo (c : Char) : Char :=
  if 65 ≤ c.toNat ∧ c.toNat ≤ 90 then Char.ofNat (c.toNat + 32) else c

/-- Go `strings.ToLower` (ASCII inputs). -/
def lowerGo (s : String) : String := ⟨s.data.map charToLowerGo⟩

def trimCharsGo (l : List Char) : List Char :=
  ((l.dropWhile isSpaceGo).reverse.dropWhile isSpaceGo).reverse

/-- Go `strings.TrimSpace` (ASCII inputs). -/
def trimGo (s : String) : String := ⟨trimCharsGo s.data⟩

/-- Go `strings.HasPrefix`. -/
def startsWithGo (s pat : String) : Bool := pat.data.isPrefixOf s.data

/-- Go `strings.HasSuffix`. -/
def endsWithGo (s pat : String) : Bool := pat.data.isSuffixOf s.data

/-- Byte slicing `s[n:]` (ASCII: one char per byte). -/
def dropGo (s : String) (n : Nat) : String := ⟨s.data.drop n⟩

/-- Split a character list at every separator character (separators are
dropped; empty pieces are kept, as in `strings.Split`). -/
def splitChars (p : Char → Bool) : List Char → List (List Char)
  | [] => [[]]
  | c :: cs =>
    let r := splitChars p cs
    if p c then [] :: r
    else
      match r with
      | [] => [[c]]
      | h :: t => (c :: h) :: t

/-- `bufio.Scanner` with `bufio.ScanLines`: split on newline, dropping one
trailing carriage return per line.  (The model may produce one extra empty
final line, which every consumer below skips.) -/
def dropCR (l : List Char) : List Char :=
  match l.getLast? with
  | some c => if c = '\r' then l.dropLast else l
  | none => l

def linesGo (s : String) : List String :=
  (splitChars (fun c => c = '\n') s.data).map fun l => ⟨dropCR l⟩

/-- The delimiter set of the dialect marker line: comma, semicolon, space, tab. -/
def isDialectSep (c : Char) : Bool := c = ',' || c = ';' || c = ' ' || c = '\t'

/-- Go `strings.FieldsFunc` for a character predicate: split and drop empty
pieces. -/
def fieldsGo (p : Char → Bool) (s : String) : List String :=
  ((splitChars p s.data).filter (fun l => l ≠ [])).map fun l => ⟨l⟩

/-- Go `strings.Join`. -/
def joinGo (sep : String) : List String → String
  | [] => ""
  | [x] => x
  | x :: y :: xs => x ++ sep ++ joinGo sep (y :: xs)

/-- Go `strings.Contains`. -/
def containsGo (s sub : String) : Bool :=
  (List.range (s.data.length + 1)).any fun i => sub.data.isPrefixOf (s.data.drop i)

/-- Source constants of dialect_migrations.go. -/
def commonDirName : String := "common"

def defaultDialectName : String := "postgres"

/-- The Go constant holding the marker text `---bun:dialect:`. -/
def dialectMarkerGo : String := "---bun:dialect:"

def sqlFileExtension : String := ".sql"

/-- A filesystem error; `notExist` marks errors matching
`errors.Is(err, fs.ErrNotExist)`. -/
structure FsError where
  msg : String
  notExist : Bool
deriving DecidableEq

instance exceptDecEq (e a : Type) [DecidableEq e] [DecidableEq a] :
    DecidableEq (Except e a)
  | .error x, .error y => decidable_of_iff (x = y) (by simp)
  | .error _, .ok _ => isFalse (by simp)
  | .ok _, .error _ => isFalse (by simp)
  | .ok x, .ok y => decidable_of_iff (x = y) (by simp)

/-- A flat file tree: (slash-separated relative path, read outcome). -/
abbrev SourceFS := List (String × Except FsError String)

/-- The virtual filesystem materialised by a layer (fstest.MapFS):
path ↦ contents. -/
abbrev MapFS := List (String × String)

inductive migrationLayer where
  | layerRoot
  | layerCommon
  | layerDialect
deriving DecidableEq

structure layerDiagnostic where
  layer : migrationLayer
  name : String
  files : Nat
  reason : String
deriving DecidableEq

structure DialectValidationResult where
  sourceLabel : String
  registrationIdx : Nat
  checkedDialects : List String
  missingDialects : List (String × List String)
  dialectAliases : List (String × String)
  availableLayers : List layerDiagnostic
  requestedTargets : List String
deriving DecidableEq

/-- Per-registration options.  The resolver callback is modelled by the
outcome of invoking it (`none` = no resolver configured); the validator
callback returns `some errorMessage` or `none` (nil error). -/
structure dialectOptions where
  explicitDialect : String := ""
  defaultDialect : String := ""
  aliases : List (String × String) := []
  resolver : Option (Except String String) := none
  validator : Option (DialectValidationResult → Option String) := none
  validateDefault : Bool := false
  rawTargets : List String := []
  sourceLabel : String := ""

/-- Association-list lookup, modelling Go map indexing. -/
def aliasLookup (k : String) : List (String × String) → Option String
  | [] => none
  | kv :: rest => if kv.1 = k then some kv.2 else aliasLookup k rest

/-- Association-list assignment, modelling Go map assignment. -/
def aliasInsert (k v : String) : List (String × String) → List (String × String)
  | [] => [(k, v)]
  | kv :: rest => if kv.1 = k then (k, v) :: rest else kv :: aliasInsert k v rest

def copyDialectAliases (src : List (String × String)) : List (String × String) :=
  src.map fun kv => (lowerGo kv.1, lowerGo kv.2)

def defaultDialectAliases : List (String × String) :=
  [("postgres", "postgres"), ("postgresql", "postgres"), ("pg", "postgres"),
   ("pgdialect", "postgres"), ("sqlite", "sqlite"), ("sqlite3", "sqlite"),
   ("sqldialect", "sqlite")]

def defaultDialectOptions : dialectOptions :=
  { defaultDialect := defaultDialectName
    aliases := copyDialectAliases defaultDialectAliases
    sourceLabel := "<embedded fs>" }

def dialectOptions.normalize (o : dialectOptions) (name : String) : String :=
  let n := lowerGo (trimGo name)
  if n = "" then ""
  else
    match aliasLookup n o.aliases with
    | some canonical => canonical
    | none => n

/-- One iteration of the WithDialectAliases loop: lower-case and trim the
pair, skip empty parts, assign alias ↦ canonical, and add the self-alias
canonical ↦ canonical only when the canonical is not yet a key. -/
def applyAliasOverride (m : List (String × String)) (kv : String × String) :
    List (String × String) :=
  let a := lowerGo (trimGo kv.1)
  let c := lowerGo (trimGo kv.2)
  if a = "" ∨ c = "" then m
  else
    let m1 := aliasInsert a c m
    match aliasLookup c m1 with
    | some _ => m1
    | none => aliasInsert c c m1

/-- WithDialectAliases.  `overrides` lists the override map's entries in the
order Go's `range` delivers them (unspecified for a Go map). -/
def withDialectAliases (overrides : List (String × String))
    (opts : dialectOptions) : dialectOptions :=
  { opts with aliases := overrides.foldl applyAliasOverride opts.aliases }

/-- A table obtained from the built-in defaults by a sequence of
WithDialectAliases applications. -/
def applyAliasOverrides (steps : List (List (String × String))) : dialectOptions :=
  steps.foldl (fun o ov => withDialectAliases ov o) defaultDialectOptions

/-- WithDialectName. -/
def withDialectName (name : String) (opts : dialectOptions) : dialectOptions :=
  { opts with explicitDialect := opts.normalize name }

def dialectOptions.validationTargets (o : dialectOptions) : List String :=
  if o.rawTargets = [] then []
  else
    o.rawTargets.foldl (fun acc raw =>
      let n := o.normalize raw
      if n = "" then acc
      else if n ∈ acc then acc
      else acc ++ [n]) []

/-- The `add` closure of candidateDirectories: skip empty values, trim,
skip values already seen, else append. -/
def addCandidateDir (dirs : List String) (value : String) : List String :=
  if value = "" then dirs
  else
    let v := trimGo value
    if v = "" then dirs
    else if v ∈ dirs then dirs
    else dirs ++ [v]

/-- candidateDirectories, with the alias table's entries delivered in
enumeration order `enum` (Go map iteration order is unspecified: any
permutation of `o.aliases` can occur). -/
def candidateDirsEnum (o : dialectOptions) (enum : List (String × String))
    (name : String) : List String :=
  if o.normalize name = "" then []
  else
    enum.foldl
      (fun dirs kv =>
        if kv.2 = o.normalize name then addCandidateDir dirs kv.1 else dirs)
      (addCandidateDir [] (o.normalize name))

def dialectOptions.candidateDirectories (o : dialectOptions) (name : String) :
    List String :=
  candidateDirsEnum o o.aliases name

def addDialectField (o : dialectOptions) (acc : List String) (field : String) :
    List String :=
  let n := o.normalize field
  if n = "" then acc
  else if n ∈ acc then acc
  else acc ++ [n]

def scanDialectLine (o : dialectOptions) (acc : List String) (line : String) :
    List String :=
  let t := trimGo line
  if t = "" then acc
  else if ¬ startsWithGo (lowerGo t) dialectMarkerGo then acc
  else
    let value := trimGo (dropGo t dialectMarkerGo.data.length)
    if value = "" then acc
    else (fieldsGo isDialectSep value).foldl (addDialectField o) acc

def dialectOptions.extractDialects (o : dialectOptions) (data : String) :
    List String :=
  (linesGo data).foldl (scanDialectLine o) []

/-- A registration: one root source tree plus options. -/
structure dialectRegistration where
  root : SourceFS
  opts : dialectOptions

structure dialectFSBuilder where
  root : SourceFS
  dialect : String
  opts : dialectOptions

/-- shouldInclude, parametrised by the builder's options and dialect. -/
def shouldIncludeCore (o : dialectOptions) (dialect : String) (data : String) :
    Bool :=
  let dialects := o.extractDialects data
  if dialects = [] then true else dialects.contains dialect

def dialectFSBuilder.shouldInclude (b : dialectFSBuilder) (data : String) :
    Bool :=
  shouldIncludeCore b.opts b.dialect data

def hasSlash (p : String) : Bool := p.data.contains '/'

/-- A path the walk visits as a regular file candidate: with
skip-subdirectories set, files inside a first-level directory are skipped
(`fs.SkipDir`). -/
def visitsPath (skipSubdirs : Bool) (p : String) : Bool :=
  !(skipSubdirs && hasSlash p)

/-- `strings.HasSuffix(strings.ToLower(path), sqlFileExtension)`. -/
def isSQLName (p : String) : Bool := endsWithGo (lowerGo p) sqlFileExtension

/-- Does a directory named `dir` exist in the tree? (`fstest.MapFS`
synthesises a directory whenever some file lives under it.) -/
def hasDirGo (fsys : SourceFS) (dir : String) : Bool :=
  fsys.any fun e => startsWithGo e.1 (dir ++ "/")

/-- The subtree rooted at `dir` (`fs.Sub`). -/
def subFSGo (fsys : SourceFS) (dir : String) : SourceFS :=
  fsys.filterMap fun e =>
    if startsWithGo e.1 (dir ++ "/") then
      some (dropGo e.1 (dir.data.length + 1), e.2)
    else none

/-- openSubFS: `fs.Sub` plus the not-exist check; a missing directory is
reported as `none` (exists = false, no error), matching the
`errors.Is(err, fs.ErrNotExist)` branches of the source. -/
def openSubFS (fsys : SourceFS) (dir : String) : Option SourceFS :=
  if dir = "" then none
  else if hasDirGo fsys dir then some (subFSGo fsys dir) else none

/-- Byte-order (lexicographic) comparison of paths, as `fs.WalkDir` sorts
directory entries. -/
def charListLe : List Char → List Char → Bool
  | [], _ => true
  | _ :: _, [] => false
  | a :: as, b :: bs =>
    if a.toNat < b.toNat then true
    else if b.toNat < a.toNat then false
    else charListLe as bs

def pathLeGo (a b : String × Except FsError String) : Bool :=
  charListLe a.1.data b.1.data

/-- `fs.WalkDir` enumerates directory entries sorted by name; on the flat
model the files are visited in sorted path order. -/
def sortFS (fsys : SourceFS) : SourceFS :=
  List.insertionSort (fun a b => pathLeGo a b = true) fsys

/-- The walk of collectLayer: skip subdirectory entries when asked, filter
to SQL files, count candidates, read and filter through shouldInclude.
A read error aborts the walk (the Go callback returns it). -/
def collectFilesCore (o : dialectOptions) (dialect : String) (skipSubdirs : Bool) :
    SourceFS → Except FsError (MapFS × Nat)
  | [] => .ok ([], 0)
  | pr :: rest =>
    if skipSubdirs && hasSlash pr.1 then collectFilesCore o dialect skipSubdirs rest
    else if ¬ isSQLName pr.1 then collectFilesCore o dialect skipSubdirs rest
    else
      match pr.2 with
      | .error e => .error e
      | .ok data =>
        match collectFilesCore o dialect skipSubdirs rest with
        | .error e => .error e
        | .ok (files, total) =>
          if shouldIncludeCore o dialect data then
            .ok ((pr.1, data) :: files, total + 1)
          else .ok (files, total + 1)

/-- The (filesystem-or-nil, diagnostic, error) triple returned by a layer
collection. -/
structure layerOutcome where
  fsys : Option MapFS
  diag : layerDiagnostic
  err : Option FsError
deriving DecidableEq

def collectLayerCore (o : dialectOptions) (dialect : String) (fsys : SourceFS)
    (layer : migrationLayer) (name : String) (skipSubdirs : Bool) : layerOutcome :=
  match collectFilesCore o dialect skipSubdirs (sortFS fsys) with
  | .error e =>
    if e.notExist then ⟨none, ⟨layer, name, 0, "directory not found"⟩, none⟩
    else ⟨none, ⟨layer, name, 0, e.msg⟩, some e⟩
  | .ok (files, total) =>
    if files.length = 0 then
      if total = 0 then
        ⟨none, ⟨layer, name, 0, "no SQL files found in " ++ name⟩, none⟩
      else
        ⟨none, ⟨layer, name, 0,
          "SQL files exist but none match dialect \"" ++ dialect ++ "\""⟩, none⟩
    else ⟨some files, ⟨layer, name, files.length, ""⟩, none⟩

def dialectFSBuilder.collectLayer (b : dialectFSBuilder) (fsys : SourceFS)
    (layer : migrationLayer) (name : String) (skipSubdirs : Bool) : layerOutcome :=
  collectLayerCore b.opts b.dialect fsys layer name skipSubdirs

def dialectFSBuilder.buildCommonLayer (b : dialectFSBuilder) : layerOutcome :=
  match openSubFS b.root commonDirName with
  | none => ⟨none, ⟨.layerCommon, commonDirName, 0, "directory not found"⟩, none⟩
  | some sub => b.collectLayer sub .layerCommon commonDirName false

def dialectFSBuilder.buildRootLayer (b : dialectFSBuilder) : layerOutcome :=
  b.collectLayer b.root .layerRoot "root" true

/-- The candidate-probing loop of buildDialectLayer: the first candidate
directory that exists is collected. -/
def probeDialectDirs (b : dialectFSBuilder) : List String → Option layerOutcome
  | [] => none
  | c :: cs =>
    match openSubFS b.root c with
    | none => probeDialectDirs b cs
    | some sub => some (b.collectLayer sub .layerDialect c false)

def dialectFSBuilder.buildDialectLayer (b : dialectFSBuilder) : layerOutcome :=
  let candidates := b.opts.candidateDirectories b.dialect
  match probeDialectDirs b candidates with
  | some outcome => outcome
  | none =>
    if candidates.length > 0 then
      ⟨none, ⟨.layerDialect, b.dialect, 0,
        "no dialect-specific directory found (searched: " ++
          joinGo ", " candidates ++ ")"⟩, none⟩
    else ⟨none, ⟨.layerDialect, b.dialect, 0, "no dialect directory configured"⟩, none⟩

structure dialectBuildResult where
  dialect : String
  fileSystems : List MapFS
  diagnostics : List layerDiagnostic
deriving DecidableEq

/-- Append the layer's virtual filesystem when it is non-nil. -/
def appendFS (l : List MapFS) : Option MapFS → List MapFS
  | none => l
  | some f => l ++ [f]

def dialectFSBuilder.build (b : dialectFSBuilder) :
    dialectBuildResult × Option FsError :=
  let o1 := b.buildCommonLayer
  match o1.err with
  | some e => (⟨b.dialect, [], [o1.diag]⟩, some e)
  | none =>
    let fs1 := appendFS [] o1.fsys
    let o2 := b.buildRootLayer
    match o2.err with
    | some e => (⟨b.dialect, fs1, [o1.diag, o2.diag]⟩, some e)
    | none =>
      let fs2 := appendFS fs1 o2.fsys
      let o3 := b.buildDialectLayer
      match o3.err with
      | some e => (⟨b.dialect, fs2, [o1.diag, o2.diag, o3.diag]⟩, some e)
      | none => (⟨b.dialect, appendFS fs2 o3.fsys, [o1.diag, o2.diag, o3.diag]⟩, none)

def dialectBuildResult.hasSQL (r : dialectBuildResult) : Bool :=
  r.diagnostics.any fun d => d.files > 0

def dialectRegistration.buildForDialect (r : dialectRegistration) (name : String) :
    dialectBuildResult × Option FsError :=
  dialectFSBuilder.build ⟨r.root, name, r.opts⟩

/-- The files of a build result, layer by layer in order. -/
def resultFiles (r : dialectBuildResult) : List String :=
  (r.fileSystems.map fun m => m.map Prod.fst).flatten

/-- A live connection handle; `dialectName = none` models
`db.Dialect() == nil`, `some s` models `db.Dialect().Name().String() = s`. -/
structure DBConn where
  dialectName : Option String

/-- An error produced by `apierrors.Wrap`. -/
structure WrappedErr where
  category : String
  message : String
  cause : String
deriving DecidableEq

/-- `apierrors.Wrap(err, apierrors.CategoryInternal, "dialect resolver failed")`. -/
def wrapResolverErr (e : String) : WrappedErr :=
  ⟨"internal", "dialect resolver failed", e⟩

/-- Step (2) of resolution: invoke the resolver when configured; an error is
wrapped; a success whose normalized form is empty is no answer (`none`). -/
def resolveFromResolver (o : dialectOptions) : Option (Except WrappedErr String) :=
  match o.resolver with
  | none => none
  | some (.error e) => some (.error (wrapResolverErr e))
  | some (.ok name) =>
    if o.normalize name ≠ "" then some (.ok (o.normalize name)) else none

/-- Step (3) of resolution: the live connection's self-reported dialect
name, normalized; nil connection, nil dialect, empty or unnormalizable
names are no answer. -/
def resolveFromDB (o : dialectOptions) (db : Option DBConn) : Option String :=
  match db with
  | none => none
  | some conn =>
    match conn.dialectName with
    | none => none
    | some dn =>
      if dn ≠ "" then
        if o.normalize dn ≠ "" then some (o.normalize dn) else none
      else none

def dialectRegistration.resolveDialect (r : dialectRegistration)
    (db : Option DBConn) : Except WrappedErr String :=
  if r.opts.explicitDialect ≠ "" then .ok r.opts.explicitDialect
  else
    match resolveFromResolver r.opts with
    | some res => res
    | none =>
      match resolveFromDB r.opts db with
      | some n => .ok n
      | none =>
        if r.opts.defaultDialect ≠ "" then .ok r.opts.defaultDialect
        else .ok defaultDialectName

def layerDiagnostic.layerName (d : layerDiagnostic) : String :=
  match d.layer with
  | .layerCommon => "common"
  | .layerDialect => "dialect-specific"
  | .layerRoot => "root"

def reasonsFromDiagnostics (diags : List layerDiagnostic) : List String :=
  let reasons := diags.foldl (fun acc d =>
    if d.files > 0 then acc
    else if d.reason = "" then acc
    else
      let label := if d.name = "" then d.layerName else d.name
      acc ++ [label ++ ": " ++ d.reason]) []
  if reasons = [] then ["no SQL files discovered across any layer"] else reasons

/-- One `\n  - dialect: reason; reason; ...` block of the default
validator's message. -/
def validatorDialectBlock (acc : String) (entry : String × List String) :
    String :=
  entry.2.foldl (fun a reason => a ++ " " ++ reason ++ ";")
    (acc ++ "\n  - " ++ entry.1 ++ ":")

def defaultValidatorMessage (result : DialectValidationResult) : String :=
  let label := if result.sourceLabel = "" then "<embedded fs>" else result.sourceLabel
  let head := "dialect migrations validation failed for " ++ label ++
    " (registration #" ++ toString result.registrationIdx ++ ")"
  result.missingDialects.foldl validatorDialectBlock head

/-- The outcome of calling a Go function that can panic. -/
inductive GoCall (α : Type) where
  | ret (value : α)
  | panics (msg : String)
deriving DecidableEq

/-- defaultDialectValidator builds the aggregate message and panics. -/
def defaultDialectValidator (result : DialectValidationResult) :
    GoCall (Option String) :=
  .panics (defaultValidatorMessage result)

inductive ValidateErr where
  | resolver (e : WrappedErr)
  | fsIssue (e : FsError)
  | callback (msg : String)
deriving DecidableEq

/-- The de-duplicating loop at the top of validate. -/
def validateTargetLoop (acc : List String) : List String → List String
  | [] => acc
  | t :: ts =>
    if t = "" then validateTargetLoop acc ts
    else if t ∈ acc then validateTargetLoop acc ts
    else validateTargetLoop (acc ++ [t]) ts

/-- The target set validate checks: the explicit targets, plus the resolved
dialect when validateDefault is set. -/
def dialectRegistration.validationTargetList (r : dialectRegistration)
    (db : Option DBConn) : Except WrappedErr (List String) :=
  let nt := validateTargetLoop [] r.opts.validationTargets
  if r.opts.validateDefault then
    match r.resolveDialect db with
    | .error e => .error e
    | .ok resolved =>
      .ok (if resolved ≠ "" ∧ resolved ∉ nt then nt ++ [resolved] else nt)
  else .ok nt

def initValidationResult (r : dialectRegistration) (idx : Nat)
    (targets : List String) : DialectValidationResult :=
  ⟨r.opts.sourceLabel, idx, [], [], copyDialectAliases r.opts.aliases, [], targets⟩

/-- The per-target loop of validate: build each target, record it as
checked, and record it as missing (with reasons) when hasSQL is false. -/
def dialectRegistration.checkTargets (r : dialectRegistration) :
    List String → DialectValidationResult →
    Except FsError DialectValidationResult
  | [], acc => .ok acc
  | t :: ts, acc =>
    match r.buildForDialect t with
    | (_, some e) => .error e
    | (br, none) =>
      let acc1 := { acc with checkedDialects := acc.checkedDialects ++ [t] }
      let acc2 :=
        if br.hasSQL then acc1
        else
          { acc1 with
            availableLayers := acc1.availableLayers ++ br.diagnostics,
            missingDialects :=
              acc1.missingDialects ++ [(t, reasonsFromDiagnostics br.diagnostics)] }
      r.checkTargets ts acc2

def dialectRegistration.validate (r : dialectRegistration) (db : Option DBConn)
    (idx : Nat) : GoCall (Option ValidateErr) :=
  match r.validationTargetList db with
  | .error e => .ret (some (.resolver e))
  | .ok ts =>
    if ts = [] then .ret none
    else
      match r.checkTargets ts (initValidationResult r idx ts) with
      | .error e => .ret (some (.fsIssue e))
      | .ok result =>
        if result.missingDialects = [] then .ret none
        else
          match r.opts.validator with
          | none =>
            match defaultDialectValidator result with
            | .panics m => .panics m
            | .ret (some msg) => .ret (some (.callback msg))
            | .ret none => .ret none
          | some v =>
            match v result with
            | some msg => .ret (some (.callback msg))
            | none => .ret none

/-! ### Character and trimming lemmas -/

theorem charOfNat_toNat_shift (n : Nat) (h1 : 65 ≤ n) (h2 : n ≤ 90) :
    (Char.ofNat (n + 32)).toNat = n + 32 := by
  interval_cases n <;> decide

theorem charToLowerGo_idem (c : Char) :
    charToLowerGo (charToLowerGo c) = charToLowerGo c := by
  unfold charToLowerGo
  by_cases h : 65 ≤ c.toNat ∧ c.toNat ≤ 90
  · rw [if_pos h, charOfNat_toNat_shift c.toNat h.1 h.2, if_neg]
    omega
  · rw [if_neg h, if_neg h]

theorem isSpaceGo_charToLowerGo (c : Char) :
    isSpaceGo (charToLowerGo c) = isSpaceGo c := by
  unfold charToLowerGo
  by_cases h : 65 ≤ c.toNat ∧ c.toNat ≤ 90
  · rw [if_pos h]
    simp only [isSpaceGo, charOfNat_toNat_shift c.toNat h.1 h.2, decide_eq_decide]
    omega
  · rw [if_neg h]

theorem dropWhile_head_not (p : Char → Bool) (l : List Char) (c : Char)
    (h : (l.dropWhile p).head? = some c) : p c = false := by
  induction l with
  | nil => simp at h
  | cons a l ih =>
    by_cases ha : p a
    · rw [List.dropWhile_cons_of_pos ha] at h
      exact ih h
    · rw [List.dropWhile_cons_of_neg ha] at h
      simp at h
      rw [← h]
      exact Bool.eq_false_iff.mpr ha

theorem dropWhile_eq_self_of_head (p : Char → Bool) (l : List Char)
    (h : ∀ c, l.head? = some c → p c = false) : l.dropWhile p = l := by
  cases l with
  | nil => rfl
  | cons a l =>
    have := h a rfl
    simp [List.dropWhile_cons, this]

theorem dropWhile_dropWhile (p : Char → Bool) (l : List Char) :
    (l.dropWhile p).dropWhile p = l.dropWhile p := by
  apply dropWhile_eq_self_of_head
  intro c hc
  exact dropWhile_head_not p l c hc

theorem getLast?_append_right (u m : List Char) (h : m ≠ []) :
    (u ++ m).getLast? = m.getLast? := by
  induction u with
  | nil => rfl
  | cons a u ih =>
    rw [List.cons_append, List.getLast?_cons, ih, List.getLast?_eq_head?_reverse]
    have : m.reverse ≠ [] := by simpa using h
    cases hm : m.reverse.head? with
    | none => simp [List.head?_eq_none_iff] at hm; exact absurd hm h
    | some c => simp [Option.or]

theorem suffix_getLast? (m r : List Char) (h : m <:+ r) (hm : m ≠ []) :
    r.getLast? = m.getLast? := by
  obtain ⟨u, rfl⟩ := h
  exact getLast?_append_right u m hm

theorem trimCharsGo_head_not (l : List Char) (c : Char)
    (h : (trimCharsGo l).head? = some c) : isSpaceGo c = false := by
  unfold trimCharsGo at h
  rw [List.head?_reverse] at h
  set r := (l.dropWhile isSpaceGo).reverse with hr
  have hne : (r.dropWhile isSpaceGo) ≠ [] := by
    intro hnil
    rw [hnil] at h
    simp at h
  have hlast : r.getLast? = (r.dropWhile isSpaceGo).getLast? :=
    suffix_getLast? _ r (List.dropWhile_suffix _) hne
  rw [← hlast] at h
  rw [hr, List.getLast?_reverse] at h
  exact dropWhile_head_not isSpaceGo l c h

theorem trimCharsGo_idem (l : List Char) :
    trimCharsGo (trimCharsGo l) = trimCharsGo l := by
  have h1 : (trimCharsGo l).dropWhile isSpaceGo = trimCharsGo l := by
    apply dropWhile_eq_self_of_head
    intro c hc
    exact trimCharsGo_head_not l c hc
  show ((((trimCharsGo l).dropWhile isSpaceGo).reverse).dropWhile isSpaceGo).reverse
      = trimCharsGo l
  rw [h1]
  show ((((((l.dropWhile isSpaceGo).reverse).dropWhile isSpaceGo).reverse).reverse).dropWhile
      isSpaceGo).reverse = trimCharsGo l
  rw [List.reverse_reverse, dropWhile_dropWhile]
  rfl

theorem dropWhile_map_lower (l : List Char) :
    (l.map charToLowerGo).dropWhile isSpaceGo =
      (l.dropWhile isSpaceGo).map charToLowerGo := by
  induction l with
  | nil => rfl
  | cons a l ih =>
    by_cases ha : isSpaceGo a
    · have ha' : isSpaceGo (charToLowerGo a) = true := by
        rw [isSpaceGo_charToLowerGo]; exact ha
      simp only [List.map_cons, List.dropWhile_cons_of_pos ha,
        List.dropWhile_cons_of_pos ha']
      exact ih
    · have ha' : ¬ isSpaceGo (charToLowerGo a) = true := by
        rw [isSpaceGo_charToLowerGo]; exact ha
      simp only [List.map_cons, List.dropWhile_cons_of_neg ha,
        List.dropWhile_cons_of_neg ha', List.map_cons]

theorem trimCharsGo_map_lower (l : List Char) :
    trimCharsGo (l.map charToLowerGo) = (trimCharsGo l).map charToLowerGo := by
  unfold trimCharsGo
  rw [dropWhile_map_lower, ← List.map_reverse, dropWhile_map_lower, ← List.map_reverse]

theorem map_lower_idem (l : List Char) :
    (l.map charToLowerGo).map charToLowerGo = l.map charToLowerGo := by
  rw [List.map_map]
  exact List.map_congr_left fun c _ => charToLowerGo_idem c

/-- The lower-cased trimmed form is a fixed point of both trimming and
lower-casing. -/
theorem lowerTrim_fix (s : String) :
    trimGo (lowerGo (trimGo s)) = lowerGo (trimGo s) ∧
      lowerGo (lowerGo (trimGo s)) = lowerGo (trimGo s) := by
  constructor
  · show String.mk (trimCharsGo ((trimCharsGo s.data).map charToLowerGo)) = _
    rw [trimCharsGo_map_lower, trimCharsGo_idem]
    rfl
  · show String.mk (((trimCharsGo s.data).map charToLowerGo).map charToLowerGo) = _
    rw [map_lower_idem]
    rfl

/-! ### Alias table lemmas -/

theorem dialectOptions.normalize_eq (o : dialectOptions) (name : String) :
    o.normalize name =
      (if lowerGo (trimGo name) = "" then ""
       else
         match aliasLookup (lowerGo (trimGo name)) o.aliases with
         | some c => c
         | none => lowerGo (trimGo name)) := rfl

theorem aliasLookup_mem (k v : String) (l : List (String × String))
    (h : aliasLookup k l = some v) : (k, v) ∈ l := by
  induction l with
  | nil => simp [aliasLookup] at h
  | cons kv rest ih =>
    by_cases hk : kv.1 = k
    · simp only [aliasLookup, if_pos hk] at h
      injection h with h
      have hkv : (k, v) = kv := by rw [← hk, ← h]
      rw [← hkv]
      exact List.mem_cons_self _ _
    · simp only [aliasLookup, if_neg hk] at h
      exact List.mem_cons_of_mem _ (ih h)

theorem trimGo_of_all_space (s : String) (h : s.data.all isSpaceGo = true) :
    trimGo s = "" := by
  have hd : s.data.dropWhile isSpaceGo = [] := by
    rw [List.dropWhile_eq_nil_iff]
    intro a ha
    exact List.all_eq_true.mp h a ha
  show String.mk (trimCharsGo s.data) = ""
  unfold trimCharsGo
  rw [hd]
  rfl

/-- C9: normalize trims whitespace and lower-cases its input and then looks
it up in the alias table; if the name is absent it is returned (trimmed and
lower-cased) unchanged rather than failing, and empty or whitespace-only
input normalizes to the empty string, the "no dialect" sentinel. -/
theorem c9_normalize_contract (o : dialectOptions) (name : String) :
    (aliasLookup (lowerGo (trimGo name)) o.aliases = none →
      o.normalize name = lowerGo (trimGo name)) ∧
    (∀ c, aliasLookup (lowerGo (trimGo name)) o.aliases = some c →
      lowerGo (trimGo name) ≠ "" → o.normalize name = c) ∧
    (name.data.all isSpaceGo = true → o.normalize name = "") := by
  refine ⟨fun hl => ?_, fun c hl hn => ?_, fun hsp => ?_⟩
  · rw [dialectOptions.normalize_eq]
    by_cases hn : lowerGo (trimGo name) = ""
    · rw [if_pos hn, hn]
    · rw [if_neg hn, hl]
  · rw [dialectOptions.normalize_eq, if_neg hn, hl]
  · rw [dialectOptions.normalize_eq]
    have : trimGo name = "" := trimGo_of_all_space name hsp
    rw [this]
    rfl

/-- The default alias table evaluated (copyDialectAliases lower-cases the
already lower-case built-ins). -/
theorem default_aliases_eval :
    defaultDialectOptions.aliases = defaultDialectAliases := by decide

/-- Normalization over the default table is idempotent. -/
theorem normalize_default_idem (s : String) :
    defaultDialectOptions.normalize (defaultDialectOptions.normalize s) =
      defaultDialectOptions.normalize s := by
  by_cases hn : lowerGo (trimGo s) = ""
  · have hs : defaultDialectOptions.normalize s = "" := by
      rw [dialectOptions.normalize_eq, if_pos hn]
    rw [hs]
    decide
  · cases hl : aliasLookup (lowerGo (trimGo s)) defaultDialectOptions.aliases with
    | none =>
      have hs : defaultDialectOptions.normalize s = lowerGo (trimGo s) := by
        rw [dialectOptions.normalize_eq, if_neg hn, hl]
      rw [hs, dialectOptions.normalize_eq, (lowerTrim_fix s).1, (lowerTrim_fix s).2, if_neg hn, hl]
    | some c =>
      have hs : defaultDialectOptions.normalize s = c := by
        rw [dialectOptions.normalize_eq, if_neg hn, hl]
      rw [hs]
      have hmem : (lowerGo (trimGo s), c) ∈ defaultDialectOptions.aliases :=
        aliasLookup_mem _ _ _ hl
      have hc : c ∈ defaultDialectOptions.aliases.map Prod.snd :=
        List.mem_map_of_mem _ hmem
      rw [default_aliases_eval] at hc
      simp only [defaultDialectAliases, List.map_cons, List.map_nil,
        List.mem_cons, List.not_mem_nil, or_false] at hc
      rcases hc with h | h | h | h | h | h | h <;> subst h <;> decide

/-! ### Alias override invariants (C4) -/

theorem aliasLookup_aliasInsert (x k v : String) (m : List (String × String)) :
    aliasLookup x (aliasInsert k v m) =
      if k = x then some v else aliasLookup x m := by
  induction m with
  | nil => simp [aliasInsert, aliasLookup]
  | cons kv' rest ih =>
    by_cases hk : kv'.1 = k
    · simp only [aliasInsert, if_pos hk]
      by_cases hx : k = x
      · simp [aliasLookup, hx]
      · have : ¬ kv'.1 = x := by rw [hk]; exact hx
        simp [aliasLookup, hx, this]
    · simp only [aliasInsert, if_neg hk]
      by_cases hx : kv'.1 = x
      · have : ¬ k = x := by intro h; exact hk (hx ▸ h ▸ rfl)
        simp [aliasLookup, hx, this]
      · simp [aliasLookup, hx, ih]

theorem mem_aliasInsert (kv' : String × String) (k v : String)
    (m : List (String × String)) (h : kv' ∈ aliasInsert k v m) :
    kv'.2 = v ∨ kv' ∈ m := by
  induction m with
  | nil =>
    simp [aliasInsert] at h
    left
    rw [h]
  | cons hd rest ih =>
    by_cases hk : hd.1 = k
    · simp only [aliasInsert, if_pos hk, List.mem_cons] at h
      rcases h with h | h
      · left; rw [h]
      · right; exact List.mem_cons_of_mem _ h
    · simp only [aliasInsert, if_neg hk, List.mem_cons] at h
      rcases h with h | h
      · right; rw [h]; exact List.mem_cons_self _ _
      · rcases ih h with h' | h'
        · left; exact h'
        · right; exact List.mem_cons_of_mem _ h'

/-- Every value of the table has a key: the self-alias weakening that
actually survives override application. -/
def valuesHaveKeys (l : List (String × String)) : Prop :=
  ∀ kv ∈ l, aliasLookup kv.2 l ≠ none

theorem aliasLookup_ne_none_aliasInsert (x k v : String)
    (m : List (String × String)) (h : aliasLookup x m ≠ none) :
    aliasLookup x (aliasInsert k v m) ≠ none := by
  rw [aliasLookup_aliasInsert]
  by_cases hk : k = x
  · simp [hk]
  · rw [if_neg hk]; exact h

theorem applyAliasOverride_valuesHaveKeys (m : List (String × String))
    (kv : String × String) (hm : valuesHaveKeys m) :
    valuesHaveKeys (applyAliasOverride m kv) := by
  unfold applyAliasOverride
  by_cases hskip : lowerGo (trimGo kv.1) = "" ∨ lowerGo (trimGo kv.2) = ""
  · simp only [if_pos hskip]; exact hm
  · simp only [if_neg hskip]
    split
    next v0 hlk =>
      intro kv' hkv'
      rcases mem_aliasInsert kv' _ _ _ hkv' with hc | hmem
      · rw [hc, hlk]
        exact Option.some_ne_none v0
      · exact aliasLookup_ne_none_aliasInsert _ _ _ _ (hm kv' hmem)
    next hlk =>
      intro kv' hkv'
      have hself : aliasLookup (lowerGo (trimGo kv.2))
          (aliasInsert (lowerGo (trimGo kv.2)) (lowerGo (trimGo kv.2))
            (aliasInsert (lowerGo (trimGo kv.1)) (lowerGo (trimGo kv.2)) m)) ≠ none := by
        rw [aliasLookup_aliasInsert, if_pos rfl]
        exact Option.some_ne_none _
      rcases mem_aliasInsert kv' _ _ _ hkv' with hc | hmem
      · rw [hc]; exact hself
      · rcases mem_aliasInsert kv' _ _ _ hmem with hc | hmem'
        · rw [hc]; exact hself
        · exact aliasLookup_ne_none_aliasInsert _ _ _ _
            (aliasLookup_ne_none_aliasInsert _ _ _ _ (hm kv' hmem'))

theorem withDialectAliases_valuesHaveKeys (overrides : List (String × String))
    (opts : dialectOptions) (h : valuesHaveKeys opts.aliases) :
    valuesHaveKeys (withDialectAliases overrides opts).aliases := by
  show valuesHaveKeys (overrides.foldl applyAliasOverride opts.aliases)
  induction overrides generalizing opts with
  | nil => exact h
  | cons ov rest ih =>
    rw [List.foldl_cons]
    exact ih { opts with aliases := applyAliasOverride opts.aliases ov }
      (applyAliasOverride_valuesHaveKeys _ _ h)

/-- Witness for C9 at concrete inputs: an unknown dialect passes through
lower-cased, a default alias resolves canonically, whitespace-only input
yields the empty sentinel. -/
theorem c9_witness :
    defaultDialectOptions.normalize "MySQL" = "mysql" ∧
    defaultDialectOptions.normalize "  PostgreSQL " = "postgres" ∧
    defaultDialectOptions.normalize " \t " = "" := by
  refine ⟨?_, ?_, ?_⟩
  · exact ((c9_normalize_contract defaultDialectOptions "MySQL").1
      (by decide)).trans (by decide)
  · exact (c9_normalize_contract defaultDialectOptions "  PostgreSQL ").2.1
      "postgres" (by decide) (by decide)
  · exact (c9_normalize_contract defaultDialectOptions " \t ").2.2 (by decide)

/-- C4 fails as stated: applying the override {"x" ↦ "pg"} to the default
table leaves "pg" as a canonical target that maps to "postgres", not to
itself, and normalization is no longer idempotent at "x". -/
theorem c4_counterexample :
    aliasLookup "x" (withDialectAliases [("x", "pg")] defaultDialectOptions).aliases =
      some "pg" ∧
    aliasLookup "pg" (withDialectAliases [("x", "pg")] defaultDialectOptions).aliases =
      some "postgres" ∧
    (withDialectAliases [("x", "pg")] defaultDialectOptions).normalize
        ((withDialectAliases [("x", "pg")] defaultDialectOptions).normalize "x") ≠
      (withDialectAliases [("x", "pg")] defaultDialectOptions).normalize "x" := by
  refine ⟨by decide, by decide, by decide⟩

/-- C4 (amended): the built-in default table maps every canonical target to
itself and is an idempotent normalization function; alias-override
application only guarantees that every canonical target is present as a key
(it maps to itself only when it was not already a key), so idempotency can
fail after overrides. -/
theorem c4_alias_table_amended :
    (∀ s, defaultDialectOptions.normalize (defaultDialectOptions.normalize s) =
        defaultDialectOptions.normalize s) ∧
    (defaultDialectAliases.all fun kv =>
        aliasLookup kv.2 defaultDialectOptions.aliases == some kv.2) = true ∧
    ∀ steps, ∀ kv ∈ (applyAliasOverrides steps).aliases,
      aliasLookup kv.2 (applyAliasOverrides steps).aliases ≠ none := by
  refine ⟨normalize_default_idem, by decide, ?_⟩
  intro steps
  suffices h : ∀ (o : dialectOptions), valuesHaveKeys o.aliases →
      valuesHaveKeys (steps.foldl (fun o ov => withDialectAliases ov o) o).aliases by
    exact h defaultDialectOptions (by unfold valuesHaveKeys; decide)
  induction steps with
  | nil => exact fun o h => h
  | cons ov rest ih =>
    intro o h
    rw [List.foldl_cons]
    exact ih (withDialectAliases ov o) (withDialectAliases_valuesHaveKeys ov o h)

/-- Witness for C4 (amended), applied to one override application. -/
theorem c4_witness :
    ("x", "pg") ∈ (applyAliasOverrides [[("x", "pg")]]).aliases ∧
    aliasLookup "pg" (applyAliasOverrides [[("x", "pg")]]).aliases ≠ none :=
  ⟨by decide,
   c4_alias_table_amended.2.2 [[("x", "pg")]] ("x", "pg") (by decide)⟩

/-! ### Annotation-scanner lemmas (C7) -/

/-- Append a dialect name unless it was already produced: first-appearance
order with duplicates suppressed. -/
def insertNewDialect (acc : List String) (n : String) : List String :=
  if n ∈ acc then acc else acc ++ [n]

/-- Is the line significant: does its trimmed, lower-cased form start with
the marker text? -/
def isMarkedLine (line : String) : Bool :=
  startsWithGo (lowerGo (trimGo line)) dialectMarkerGo

/-- The normalized non-empty fields contributed by one line:  the remainder
after the marker, split on comma/semicolon/space/tab, each field normalized
through the alias table. -/
def lineDialectFields (o : dialectOptions) (line : String) : List String :=
  let t := trimGo line
  if t = "" then []
  else if ¬ startsWithGo (lowerGo t) dialectMarkerGo then []
  else
    let value := trimGo (dropGo t dialectMarkerGo.data.length)
    if value = "" then []
    else ((fieldsGo isDialectSep value).map o.normalize).filter (fun n => n != "")

theorem foldl_addDialectField (o : dialectOptions) (fields : List String)
    (acc : List String) :
    fields.foldl (addDialectField o) acc =
      ((fields.map o.normalize).filter (fun n => n != "")).foldl
        insertNewDialect acc := by
  induction fields generalizing acc with
  | nil => rfl
  | cons f rest ih =>
    simp only [List.foldl_cons, List.map_cons, List.filter_cons]
    by_cases hn : o.normalize f = ""
    · have : (o.normalize f != "") = false := by simp [hn]
      rw [this]
      simp only [Bool.false_eq_true, if_false]
      have ha : addDialectField o acc f = acc := by
        unfold addDialectField
        rw [if_pos hn]
      rw [ha, ih]
    · have : (o.normalize f != "") = true := by simp [hn]
      rw [this]
      simp only [if_true]
      have ha : addDialectField o acc f = insertNewDialect acc (o.normalize f) := by
        unfold addDialectField insertNewDialect
        rw [if_neg hn]
      rw [ha, ih, List.foldl_cons]

theorem scanDialectLine_eq (o : dialectOptions) (acc : List String)
    (line : String) :
    scanDialectLine o acc line =
      (lineDialectFields o line).foldl insertNewDialect acc := by
  unfold scanDialectLine lineDialectFields
  by_cases h1 : trimGo line = ""
  · rw [if_pos h1, if_pos h1]
    rfl
  · rw [if_neg h1, if_neg h1]
    by_cases h2 : startsWithGo (lowerGo (trimGo line)) dialectMarkerGo = true
    · rw [if_neg (not_not_intro h2), if_neg (not_not_intro h2)]
      by_cases h3 : trimGo (dropGo (trimGo line) dialectMarkerGo.data.length) = ""
      · rw [if_pos h3, if_pos h3]
        rfl
      · rw [if_neg h3, if_neg h3]
        exact foldl_addDialectField o _ acc
    · rw [if_pos h2, if_pos h2]
      rfl

theorem foldl_scanDialectLine (o : dialectOptions) (ls : List String)
    (acc : List String) :
    ls.foldl (scanDialectLine o) acc =
      (ls.flatMap (lineDialectFields o)).foldl insertNewDialect acc := by
  induction ls generalizing acc with
  | nil => rfl
  | cons line rest ih =>
    rw [List.foldl_cons, List.flatMap_cons, List.foldl_append,
      scanDialectLine_eq, ih]

theorem lineDialectFields_of_unmarked (o : dialectOptions) (line : String)
    (h : isMarkedLine line = false) : lineDialectFields o line = [] := by
  unfold lineDialectFields
  by_cases h1 : trimGo line = ""
  · rw [if_pos h1]
  · rw [if_neg h1, if_pos]
    unfold isMarkedLine at h
    simp [h]

theorem foldl_insertNewDialect_nodup (l acc : List String) (h : acc.Nodup) :
    (l.foldl insertNewDialect acc).Nodup := by
  induction l generalizing acc with
  | nil => exact h
  | cons n rest ih =>
    rw [List.foldl_cons]
    apply ih
    unfold insertNewDialect
    by_cases hm : n ∈ acc
    · rw [if_pos hm]; exact h
    · rw [if_neg hm]
      simp [List.nodup_append, h, hm]

/-- C7: extractDialects treats a line as significant only if, after
trimming, its lower-cased form starts with the marker `---bun:dialect:`;
the remainder is split on comma, semicolon, space or tab, each field is
normalized through the alias table, and the non-empty normalized names are
returned in first-appearance order with duplicates suppressed; a file with
zero marker lines yields the empty set. -/
theorem c7_extract_contract :
    (∀ (o : dialectOptions) (data : String),
      o.extractDialects data =
        ((linesGo data).flatMap (lineDialectFields o)).foldl insertNewDialect []) ∧
    (∀ (o : dialectOptions) (data : String), (o.extractDialects data).Nodup) ∧
    (∀ (o : dialectOptions) (data : String),
      (∀ line ∈ linesGo data, isMarkedLine line = false) →
        o.extractDialects data = []) ∧
    defaultDialectOptions.extractDialects
        "---BUN:dialect: postgres, pg;sqlite3\nSELECT 1;" =
      ["postgres", "sqlite"] := by
  have hmain : ∀ (o : dialectOptions) (data : String),
      o.extractDialects data =
        ((linesGo data).flatMap (lineDialectFields o)).foldl insertNewDialect [] :=
    fun o data => foldl_scanDialectLine o (linesGo data) []
  refine ⟨hmain, ?_, ?_, by decide⟩
  · intro o data
    rw [hmain]
    exact foldl_insertNewDialect_nodup _ _ List.nodup_nil
  · intro o data h
    rw [hmain]
    have hnil : (linesGo data).flatMap (lineDialectFields o) = [] := by
      rw [List.flatMap_eq_nil_iff]
      intro line hl
      exact lineDialectFields_of_unmarked o line (h line hl)
    rw [hnil]
    rfl

/-- Witness for C7: a file whose lines carry no marker yields the empty
set. -/
theorem c7_witness :
    (∀ line ∈ linesGo "SELECT 1;\n-- plain comment\n", isMarkedLine line = false) ∧
    defaultDialectOptions.extractDialects "SELECT 1;\n-- plain comment\n" = [] :=
  ⟨by decide,
   c7_extract_contract.2.2.1 defaultDialectOptions "SELECT 1;\n-- plain comment\n"
     (by decide)⟩

/-! ### Dialect resolution (C3) -/

/-- Step (2) produced no answer: no resolver was configured, or it
succeeded with a name that normalizes to the empty string. -/
def resolverNoAnswer (o : dialectOptions) : Prop :=
  o.resolver = none ∨ ∃ s, o.resolver = some (.ok s) ∧ o.normalize s = ""

/-- Step (3) produced no answer: there is no live connection, or it reports
no dialect, or an empty / unnormalizable name. -/
def dbNoAnswer (o : dialectOptions) (db : Option DBConn) : Prop :=
  ∀ conn dn, db = some conn → conn.dialectName = some dn →
    dn = "" ∨ o.normalize dn = ""

theorem resolveFromResolver_of_noAnswer (o : dialectOptions)
    (h : resolverNoAnswer o) : resolveFromResolver o = none := by
  rcases h with h | ⟨s, hs, hn⟩
  · unfold resolveFromResolver
    rw [h]
  · unfold resolveFromResolver
    rw [hs]
    simp [hn]

theorem resolveFromDB_step (o : dialectOptions) (conn : DBConn) :
    resolveFromDB o (some conn) =
      (match conn.dialectName with
       | none => none
       | some dn =>
         if dn ≠ "" then
           if o.normalize dn ≠ "" then some (o.normalize dn) else none
         else none) := rfl

theorem resolveFromDB_of_noAnswer (o : dialectOptions) (db : Option DBConn)
    (h : dbNoAnswer o db) : resolveFromDB o db = none := by
  cases db with
  | none => rfl
  | some conn =>
    rw [resolveFromDB_step]
    cases hc : conn.dialectName with
    | none => rfl
    | some dn =>
      rcases h conn dn rfl hc with h' | h' <;> simp [h']

/-- C3: resolution tries, in order and first success winning, the explicit
dialect, the resolver callback (error wrapped and surfaced; empty or
unnormalizable success treated as no answer), the connection's
self-reported dialect normalized, the configured default, and the
hard-coded fallback name; only step (2) is an effectful call, every other
step reads already-available data. -/
theorem c3_resolution_order (r : dialectRegistration) (db : Option DBConn) :
    (r.opts.explicitDialect ≠ "" →
      r.resolveDialect db = .ok r.opts.explicitDialect) ∧
    (r.opts.explicitDialect = "" → ∀ e, r.opts.resolver = some (.error e) →
      r.resolveDialect db = .error (wrapResolverErr e)) ∧
    (r.opts.explicitDialect = "" → ∀ s, r.opts.resolver = some (.ok s) →
      r.opts.normalize s ≠ "" → r.resolveDialect db = .ok (r.opts.normalize s)) ∧
    (r.opts.explicitDialect = "" → resolverNoAnswer r.opts →
      ∀ conn dn, db = some conn → conn.dialectName = some dn → dn ≠ "" →
      r.opts.normalize dn ≠ "" → r.resolveDialect db = .ok (r.opts.normalize dn)) ∧
    (r.opts.explicitDialect = "" → resolverNoAnswer r.opts →
      dbNoAnswer r.opts db → r.opts.defaultDialect ≠ "" →
      r.resolveDialect db = .ok r.opts.defaultDialect) ∧
    (r.opts.explicitDialect = "" → resolverNoAnswer r.opts →
      dbNoAnswer r.opts db → r.opts.defaultDialect = "" →
      r.resolveDialect db = .ok defaultDialectName) := by
  refine ⟨fun h => ?_, fun h e he => ?_, fun h s hs hn => ?_,
    fun h hra conn dn hdb hdn hne hnn => ?_, fun h hra hdbn hd => ?_,
    fun h hra hdbn hd => ?_⟩
  · unfold dialectRegistration.resolveDialect
    rw [if_pos h]
  · unfold dialectRegistration.resolveDialect
    rw [if_neg (by simp [h])]
    have : resolveFromResolver r.opts = some (.error (wrapResolverErr e)) := by
      unfold resolveFromResolver
      rw [he]
    rw [this]
  · unfold dialectRegistration.resolveDialect
    rw [if_neg (by simp [h])]
    have : resolveFromResolver r.opts = some (.ok (r.opts.normalize s)) := by
      unfold resolveFromResolver
      rw [hs]
      simp [hn]
    rw [this]
  · unfold dialectRegistration.resolveDialect
    rw [if_neg (by simp [h]), resolveFromResolver_of_noAnswer r.opts hra]
    have : resolveFromDB r.opts db = some (r.opts.normalize dn) := by
      rw [hdb, resolveFromDB_step, hdn]
      simp [hne, hnn]
    rw [this]
  · unfold dialectRegistration.resolveDialect
    rw [if_neg (by simp [h]), resolveFromResolver_of_noAnswer r.opts hra,
      resolveFromDB_of_noAnswer r.opts db hdbn]
    simp [hd]
  · unfold dialectRegistration.resolveDialect
    rw [if_neg (by simp [h]), resolveFromResolver_of_noAnswer r.opts hra,
      resolveFromDB_of_noAnswer r.opts db hdbn]
    simp [hd]

/-- Witness for C3: with no explicit dialect, a resolver answering "PG ",
and no live connection, resolution returns the normalized resolver answer;
with no resolver answer it falls back to the configured default. -/
theorem c3_witness :
    (dialectRegistration.resolveDialect
      ⟨[], { defaultDialectOptions with resolver := some (.ok "PG ") }⟩ none =
        .ok "postgres") ∧
    (dialectRegistration.resolveDialect ⟨[], defaultDialectOptions⟩
      (some ⟨some "  "⟩) = .ok "postgres") := by
  constructor
  · exact ((c3_resolution_order
      ⟨[], { defaultDialectOptions with resolver := some (.ok "PG ") }⟩
      none).2.2.1 (by decide) "PG " rfl (by decide)).trans (by decide)
  · exact ((c3_resolution_order ⟨[], defaultDialectOptions⟩
      (some ⟨some "  "⟩)).2.2.2.2.1 (by decide) (Or.inl rfl)
      (by intro conn dn hc hd; injection hc with hc; rw [← hc] at hd;
          injection hd with hd; right; rw [← hd]; decide)
      (by decide)).trans (by decide)

/-! ### Validation reporting (C10, C5) -/

/-- C10: the default validation callback never returns (normally or with an
error): it unconditionally panics with the composed message; hence with no
custom validator configured, whenever validation detects missing dialects
the whole validation panics and the error-return path of the callback is
never taken. -/
theorem c10_default_validator_panics :
    (∀ result, defaultDialectValidator result =
      GoCall.panics (defaultValidatorMessage result)) ∧
    (∀ (r : dialectRegistration) (db : Option DBConn) (idx : Nat)
        (ts : List String) (result : DialectValidationResult),
      r.opts.validator = none →
      r.validationTargetList db = .ok ts → ts ≠ [] →
      r.checkTargets ts (initValidationResult r idx ts) = .ok result →
      result.missingDialects ≠ [] →
      r.validate db idx = .panics (defaultValidatorMessage result)) := by
  refine ⟨fun result => rfl, ?_⟩
  intro r db idx ts result hv hts hne hct hmd
  unfold dialectRegistration.validate
  rw [hts]
  simp only [hct, hv]
  rw [if_neg hne, if_neg hmd]
  rfl

/-- The registration of the C10 witness: empty tree, explicit target
"sqlite", no custom validator. -/
def c10Reg : dialectRegistration :=
  ⟨[], { defaultDialectOptions with rawTargets := ["sqlite"] }⟩

/-- The validation result the C10 witness's registration produces. -/
def c10Result : DialectValidationResult :=
  ⟨"<embedded fs>", 3, ["sqlite"],
   [("sqlite",
     ["common: directory not found", "root: no SQL files found in root",
      "sqlite: no dialect-specific directory found (searched: sqlite, sqlite3, sqldialect)"])],
   copyDialectAliases defaultDialectOptions.aliases,
   [⟨.layerCommon, "common", 0, "directory not found"⟩,
    ⟨.layerRoot, "root", 0, "no SQL files found in root"⟩,
    ⟨.layerDialect, "sqlite", 0,
     "no dialect-specific directory found (searched: sqlite, sqlite3, sqldialect)"⟩],
   ["sqlite"]⟩

/-- Witness for C10: with the default configuration and a missing dialect,
validate panics. -/
theorem c10_witness :
    c10Reg.validate none 3 = GoCall.panics (defaultValidatorMessage c10Result) :=
  c10_default_validator_panics.2 c10Reg none 3 ["sqlite"] c10Result rfl
    (by decide) (by decide) (by decide) (by decide)

/-- The registration of C5: a tree containing only `sqlite/2.up.sql`, with
validation target "postgres". -/
def c5Reg : dialectRegistration :=
  ⟨[("sqlite/2.up.sql", .ok "CREATE TABLE t (id INTEGER);")],
   { defaultDialectOptions with rawTargets := ["postgres"] }⟩

def c5MissingReasons : List String :=
  ["common: directory not found", "root: no SQL files found in root",
   "postgres: no dialect-specific directory found (searched: postgres, postgresql, pg, pgdialect)"]

/-- The validation result C5's registration produces. -/
def c5Result : DialectValidationResult :=
  ⟨"<embedded fs>", 0, ["postgres"], [("postgres", c5MissingReasons)],
   copyDialectAliases defaultDialectOptions.aliases,
   [⟨.layerCommon, "common", 0, "directory not found"⟩,
    ⟨.layerRoot, "root", 0, "no SQL files found in root"⟩,
    ⟨.layerDialect, "postgres", 0,
     "no dialect-specific directory found (searched: postgres, postgresql, pg, pgdialect)"⟩],
   ["postgres"]⟩

/-- C5: validating ["postgres"] against a tree holding only sqlite/ records
exactly one missing dialect, "postgres", with one reason per empty layer
(common, root, dialect-specific), and the default callback's message
contains "postgres", the source label and the registration index. -/
theorem c5_validation_missing_postgres :
    c5Reg.validationTargetList none = .ok ["postgres"] ∧
    c5Reg.checkTargets ["postgres"] (initValidationResult c5Reg 0 ["postgres"]) =
      .ok c5Result ∧
    c5Result.missingDialects = [("postgres", c5MissingReasons)] ∧
    c5MissingReasons.length = 3 ∧
    c5Reg.validate none 0 = .panics (defaultValidatorMessage c5Result) ∧
    containsGo (defaultValidatorMessage c5Result) "postgres" = true ∧
    containsGo (defaultValidatorMessage c5Result) "<embedded fs>" = true ∧
    containsGo (defaultValidatorMessage c5Result) "registration #0" = true := by
  refine ⟨by decide, by decide, by decide, by decide, by decide, by decide,
    by decide, by decide⟩

/-! ### Error taxonomy of layer collection and build (C6) -/

/-- C6: a missing source directory is not an error (nil filesystem, no
error, reason "directory not found", both from openSubFS and from a
not-exist error inside the walk); a layer collection never propagates a
not-exist error; and any other filesystem error aborts the build at the
failing layer, without attempting subsequent layers. -/
theorem c6_not_found_vs_hard_errors :
    (∀ b : dialectFSBuilder, openSubFS b.root commonDirName = none →
      b.buildCommonLayer =
        ⟨none, ⟨.layerCommon, commonDirName, 0, "directory not found"⟩, none⟩) ∧
    (∀ (o : dialectOptions) (dialect : String) (fsys : SourceFS)
        (layer : migrationLayer) (name : String) (skip : Bool) (e : FsError),
      collectFilesCore o dialect skip (sortFS fsys) = .error e →
      e.notExist = true →
      collectLayerCore o dialect fsys layer name skip =
        ⟨none, ⟨layer, name, 0, "directory not found"⟩, none⟩) ∧
    (∀ (o : dialectOptions) (dialect : String) (fsys : SourceFS)
        (layer : migrationLayer) (name : String) (skip : Bool) (e : FsError),
      (collectLayerCore o dialect fsys layer name skip).err = some e →
      e.notExist = false) ∧
    (∀ (b : dialectFSBuilder) (e : FsError), b.buildCommonLayer.err = some e →
      b.build = (⟨b.dialect, [], [b.buildCommonLayer.diag]⟩, some e)) ∧
    (∀ (b : dialectFSBuilder) (e : FsError), b.buildCommonLayer.err = none →
      b.buildRootLayer.err = some e →
      b.build = (⟨b.dialect, appendFS [] b.buildCommonLayer.fsys,
        [b.buildCommonLayer.diag, b.buildRootLayer.diag]⟩, some e)) ∧
    (∀ (b : dialectFSBuilder) (e : FsError), b.buildCommonLayer.err = none →
      b.buildRootLayer.err = none → b.buildDialectLayer.err = some e →
      b.build = (⟨b.dialect,
        appendFS (appendFS [] b.buildCommonLayer.fsys) b.buildRootLayer.fsys,
        [b.buildCommonLayer.diag, b.buildRootLayer.diag,
         b.buildDialectLayer.diag]⟩, some e)) := by
  refine ⟨?_, ?_, ?_, ?_, ?_, ?_⟩
  · intro b h
    unfold dialectFSBuilder.buildCommonLayer
    rw [h]
  · intro o dialect fsys layer name skip e hcf hne
    unfold collectLayerCore
    rw [hcf]
    simp [hne]
  · intro o dialect fsys layer name skip e h
    unfold collectLayerCore at h
    cases hc : collectFilesCore o dialect skip (sortFS fsys) with
    | error e' =>
      rw [hc] at h
      by_cases hne : e'.notExist
      · simp [hne] at h
      · simp [hne] at h
        rw [← h]
        exact Bool.eq_false_iff.mpr hne
    | ok pair =>
      rw [hc] at h
      obtain ⟨files, total⟩ := pair
      by_cases hf : files.length = 0
      · by_cases ht : total = 0 <;> simp [hf, ht] at h
      · simp [hf] at h
  · intro b e h
    unfold dialectFSBuilder.build
    simp only [h]
  · intro b e h1 h2
    unfold dialectFSBuilder.build
    simp only [h1, h2]
  · intro b e h1 h2 h3
    unfold dialectFSBuilder.build
    simp only [h1, h2, h3]

/-- The root tree of the C6 witness: a single SQL file whose read fails
with a non-not-exist error. -/
def c6Builder : dialectFSBuilder :=
  ⟨[("boom.up.sql", .error ⟨"simulated io failure", false⟩)], "postgres",
   defaultDialectOptions⟩

/-- Witness for C6: the missing common directory is a silent diagnostic,
and the genuine read error on the root layer aborts the build with only
the first two layer diagnostics recorded. -/
theorem c6_witness :
    c6Builder.buildCommonLayer =
      ⟨none, ⟨.layerCommon, commonDirName, 0, "directory not found"⟩, none⟩ ∧
    c6Builder.build = (⟨"postgres", [],
      [⟨.layerCommon, "common", 0, "directory not found"⟩,
       ⟨.layerRoot, "root", 0, "simulated io failure"⟩]⟩,
      some ⟨"simulated io failure", false⟩) := by
  constructor
  · exact c6_not_found_vs_hard_errors.1 c6Builder (by decide)
  · exact (c6_not_found_vs_hard_errors.2.2.2.2.1 c6Builder
      ⟨"simulated io failure", false⟩ (by decide) (by decide)).trans (by decide)

/-! ### Per-file inclusion rule (C2) -/

/-- What the walk does to one visited entry when every read succeeds:
keep the file iff it is visited, has the SQL extension and passes
shouldInclude. -/
def pickFile (o : dialectOptions) (dialect : String) (skip : Bool)
    (pr : String × Except FsError String) : Option (String × String) :=
  match pr.2 with
  | .error _ => none
  | .ok data =>
    if visitsPath skip pr.1 && isSQLName pr.1 && shouldIncludeCore o dialect data then
      some (pr.1, data)
    else none

/-- A visited SQL file (the "candidate" counter's predicate). -/
def isSQLCandidate (skip : Bool) (pr : String × Except FsError String) : Bool :=
  visitsPath skip pr.1 && isSQLName pr.1

theorem sortFS_perm (fsys : SourceFS) : (sortFS fsys).Perm fsys :=
  List.perm_insertionSort _ fsys

theorem collectFilesCore_clean (o : dialectOptions) (dialect : String)
    (skip : Bool) (l : SourceFS) (h : ∀ pr ∈ l, pr.2.isOk = true) :
    collectFilesCore o dialect skip l =
      .ok (l.filterMap (pickFile o dialect skip), l.countP (isSQLCandidate skip)) := by
  induction l with
  | nil => rfl
  | cons pr rest ih =>
    obtain ⟨path, read⟩ := pr
    cases read with
    | error e =>
      have := h _ (List.mem_cons_self _ _)
      simp [Except.isOk, Except.toBool] at this
    | ok data =>
      have ih' := ih fun q hq => h q (List.mem_cons_of_mem _ hq)
      unfold collectFilesCore
      by_cases h1 : (skip && hasSlash path) = true
      · have hv : visitsPath skip path = false := by
          simp only [visitsPath, h1, Bool.not_true]
        rw [if_pos h1, ih']
        simp [List.filterMap_cons, List.countP_cons, pickFile, isSQLCandidate, hv]
      · have hv : visitsPath skip path = true := by
          simp only [visitsPath, Bool.not_eq_true', ← Bool.not_eq_true, h1,
            not_false_eq_true]
        rw [if_neg h1]
        by_cases h2 : isSQLName path = true
        · rw [if_neg (by simp [h2]), ih']
          by_cases h3 : shouldIncludeCore o dialect data = true
          · simp [List.filterMap_cons, List.countP_cons, pickFile, isSQLCandidate,
              hv, h2, h3]
          · simp [List.filterMap_cons, List.countP_cons, pickFile, isSQLCandidate,
              hv, h2, h3]
        · rw [if_pos (by simp [h2]), ih']
          simp [List.filterMap_cons, List.countP_cons, pickFile, isSQLCandidate,
            hv, h2]

/-- The virtual filesystem of a layer outcome (empty when nil). -/
def layerFilesOf (lo : layerOutcome) : MapFS := lo.fsys.getD []

theorem collectLayer_files_clean (o : dialectOptions) (dialect : String)
    (fsys : SourceFS) (layer : migrationLayer) (name : String) (skip : Bool)
    (h : ∀ pr ∈ fsys, pr.2.isOk = true) :
    layerFilesOf (collectLayerCore o dialect fsys layer name skip) =
      (sortFS fsys).filterMap (pickFile o dialect skip) := by
  have hsorted : ∀ pr ∈ sortFS fsys, pr.2.isOk = true := fun pr hpr =>
    h pr ((sortFS_perm fsys).subset hpr)
  unfold collectLayerCore
  rw [collectFilesCore_clean o dialect skip (sortFS fsys) hsorted]
  by_cases hf : ((sortFS fsys).filterMap (pickFile o dialect skip)).length = 0
  · have hnil := List.length_eq_zero.mp hf
    by_cases ht : (sortFS fsys).countP (isSQLCandidate skip) = 0 <;>
      simp [layerFilesOf, hf, ht, hnil]
  · simp [layerFilesOf, hf]

theorem shouldIncludeCore_iff (o : dialectOptions) (dialect data : String) :
    shouldIncludeCore o dialect data = true ↔
      (o.extractDialects data = [] ∨ dialect ∈ o.extractDialects data) := by
  unfold shouldIncludeCore
  by_cases h : o.extractDialects data = []
  · simp [h]
  · simp [h, List.elem_iff]

theorem pickFile_eq_some (o : dialectOptions) (dialect : String) (skip : Bool)
    (pr : String × Except FsError String) (p d : String) :
    pickFile o dialect skip pr = some (p, d) ↔
      (pr = (p, Except.ok d) ∧ visitsPath skip p = true ∧ isSQLName p = true ∧
        shouldIncludeCore o dialect d = true) := by
  obtain ⟨path, read⟩ := pr
  cases read with
  | error e => simp [pickFile]
  | ok data =>
    unfold pickFile
    dsimp only
    by_cases hc : (visitsPath skip path && isSQLName path &&
        shouldIncludeCore o dialect data) = true
    · rw [if_pos hc]
      simp only [Bool.and_eq_true] at hc
      simp only [Option.some.injEq, Prod.mk.injEq]
      constructor
      · rintro ⟨hp, hd⟩
        subst hp
        subst hd
        exact ⟨⟨rfl, rfl⟩, hc.1.1, hc.1.2, hc.2⟩
      · rintro ⟨⟨hp, hd⟩, _, _, _⟩
        injection hd with hd
        exact ⟨hp, hd⟩
    · rw [if_neg hc]
      constructor
      · intro h
        exact absurd h (by simp)
      · rintro ⟨hpr, h1, h2, h3⟩
        exfalso
        apply hc
        have hp : path = p := congrArg Prod.fst hpr
        have hd : data = d := by
          have := congrArg Prod.snd hpr
          simpa using this
        rw [hp, hd]
        simp [h1, h2, h3]

/-- The doubly-annotated file of C2's concrete cases. -/
def c2File : String := "---bun:dialect:postgres,sqlite\nCREATE TABLE x (id INT);"

/-- C2: a file reached by a layer collection lands in the layer's virtual
filesystem iff its extracted annotation set is empty or contains the
build's dialect (excluded files are skipped, never an error); a file with
no annotation line is included for every dialect; and the file annotated
`---bun:dialect:postgres,sqlite` is included for "postgres" and "sqlite"
(also when those names arrive through the aliases "pg" and "sqlite3",
which normalize to them) and excluded for "mysql". -/
theorem c2_inclusion_rule :
    (∀ (o : dialectOptions) (dialect : String) (fsys : SourceFS)
        (layer : migrationLayer) (name : String) (skip : Bool),
      (∀ pr ∈ fsys, pr.2.isOk = true) →
      ∀ p d,
        ((p, d) ∈ layerFilesOf (collectLayerCore o dialect fsys layer name skip) ↔
          ((p, Except.ok d) ∈ fsys ∧ visitsPath skip p = true ∧
            isSQLName p = true ∧
            (o.extractDialects d = [] ∨ dialect ∈ o.extractDialects d)))) ∧
    (∀ (o : dialectOptions) (dialect data : String),
      o.extractDialects data = [] → shouldIncludeCore o dialect data = true) ∧
    shouldIncludeCore defaultDialectOptions "postgres" c2File = true ∧
    shouldIncludeCore defaultDialectOptions "sqlite" c2File = true ∧
    shouldIncludeCore defaultDialectOptions
      (defaultDialectOptions.normalize "pg") c2File = true ∧
    shouldIncludeCore defaultDialectOptions
      (defaultDialectOptions.normalize "sqlite3") c2File = true ∧
    shouldIncludeCore defaultDialectOptions "mysql" c2File = false := by
  refine ⟨?_, ?_, by decide, by decide, by decide, by decide, by decide⟩
  · intro o dialect fsys layer name skip h p d
    rw [collectLayer_files_clean o dialect fsys layer name skip h]
    constructor
    · intro hmem
      rw [List.mem_filterMap] at hmem
      obtain ⟨pr, hpr, hpick⟩ := hmem
      obtain ⟨hpr_eq, h1, h2, h3⟩ := (pickFile_eq_some o dialect skip pr p d).mp hpick
      subst hpr_eq
      exact ⟨(sortFS_perm fsys).subset hpr, h1, h2,
        (shouldIncludeCore_iff o dialect d).mp h3⟩
    · rintro ⟨hmem, h1, h2, h3⟩
      rw [List.mem_filterMap]
      exact ⟨(p, Except.ok d), (sortFS_perm fsys).mem_iff.mpr hmem,
        (pickFile_eq_some o dialect skip (p, Except.ok d) p d).mpr
          ⟨rfl, h1, h2, (shouldIncludeCore_iff o dialect d).mpr h3⟩⟩
  · intro o dialect data h
    unfold shouldIncludeCore
    simp [h]

/-- Witness for C2: the annotated file is present in a collected root
layer when building for "postgres". -/
theorem c2_witness :
    ("0001.up.sql", c2File) ∈ layerFilesOf
      (collectLayerCore defaultDialectOptions "postgres"
        [("0001.up.sql", Except.ok c2File)] migrationLayer.layerRoot "root" true) :=
  (c2_inclusion_rule.1 defaultDialectOptions "postgres"
    [("0001.up.sql", Except.ok c2File)] migrationLayer.layerRoot "root" true
    (by decide) "0001.up.sql" c2File).mpr
    ⟨by decide, by decide, by decide, Or.inr (by decide)⟩

/-! ### Assembler ordering (C1) -/

theorem hasDirGo_perm (l1 l2 : SourceFS) (h : l1.Perm l2) (dir : String) :
    hasDirGo l1 dir = hasDirGo l2 dir := by
  unfold hasDirGo
  rw [Bool.eq_iff_iff]
  simp only [List.any_eq_true]
  constructor <;> rintro ⟨x, hx, hpx⟩
  · exact ⟨x, h.subset hx, hpx⟩
  · exact ⟨x, h.symm.subset hx, hpx⟩

theorem subFSGo_perm (l1 l2 : SourceFS) (h : l1.Perm l2) (dir : String) :
    (subFSGo l1 dir).Perm (subFSGo l2 dir) := h.filterMap _

/-- The fixture of C1: `common/a.up.sql`, root `b.up.sql`,
`postgres/c.up.sql`. -/
def c1FileA : String := "SELECT 1;"

def c1FileB : String := "SELECT 2;"

def c1FileC : String := "SELECT 3;"

def c1Fixture : SourceFS :=
  [("common/a.up.sql", .ok c1FileA), ("b.up.sql", .ok c1FileB),
   ("postgres/c.up.sql", .ok c1FileC)]

/-- C1: a successful build records exactly the three layer diagnostics in
the order common, root, dialect-specific, and exactly the non-nil layer
filesystems in that same order; on the fixture, building for "postgres"
yields the files a.up.sql, b.up.sql, c.up.sql in that order whatever order
the filesystem enumerates the fixture's entries in. -/
theorem c1_build_order :
    (∀ (b : dialectFSBuilder) (res : dialectBuildResult),
      b.build = (res, none) →
      res.diagnostics = [b.buildCommonLayer.diag, b.buildRootLayer.diag,
        b.buildDialectLayer.diag] ∧
      res.fileSystems = appendFS (appendFS (appendFS [] b.buildCommonLayer.fsys)
        b.buildRootLayer.fsys) b.buildDialectLayer.fsys) ∧
    (∀ l : SourceFS, l.Perm c1Fixture →
      dialectFSBuilder.build ⟨l, "postgres", defaultDialectOptions⟩ =
        (⟨"postgres",
          [[("a.up.sql", c1FileA)], [("b.up.sql", c1FileB)], [("c.up.sql", c1FileC)]],
          [⟨.layerCommon, "common", 1, ""⟩, ⟨.layerRoot, "root", 1, ""⟩,
           ⟨.layerDialect, "postgres", 1, ""⟩]⟩, none) ∧
      resultFiles (dialectFSBuilder.build ⟨l, "postgres", defaultDialectOptions⟩).1 =
        ["a.up.sql", "b.up.sql", "c.up.sql"]) := by
  constructor
  · intro b res h
    unfold dialectFSBuilder.build at h
    cases h1 : b.buildCommonLayer.err with
    | some e =>
      simp only [h1] at h
      have := congrArg Prod.snd h
      simp at this
    | none =>
      simp only [h1] at h
      cases h2 : b.buildRootLayer.err with
      | some e =>
        simp only [h2] at h
        have := congrArg Prod.snd h
        simp at this
      | none =>
        simp only [h2] at h
        cases h3 : b.buildDialectLayer.err with
        | some e =>
          simp only [h3] at h
          have := congrArg Prod.snd h
          simp at this
        | none =>
          simp only [h3] at h
          have hres := congrArg Prod.fst h
          dsimp only at hres
          rw [← hres]
          exact ⟨rfl, rfl⟩
  · intro l hperm
    have hsubCommon : subFSGo l commonDirName = [("a.up.sql", Except.ok c1FileA)] := by
      apply List.perm_singleton.mp
      have hp := subFSGo_perm l c1Fixture hperm commonDirName
      rw [show subFSGo c1Fixture commonDirName = [("a.up.sql", Except.ok c1FileA)]
        from by decide] at hp
      exact hp
    have hopenCommon : openSubFS l commonDirName =
        some [("a.up.sql", Except.ok c1FileA)] := by
      unfold openSubFS
      rw [if_neg (by decide), hasDirGo_perm l c1Fixture hperm,
        if_pos (show hasDirGo c1Fixture commonDirName = true from by decide),
        hsubCommon]
    have hcommon : dialectFSBuilder.buildCommonLayer
        ⟨l, "postgres", defaultDialectOptions⟩ =
        ⟨some [("a.up.sql", c1FileA)], ⟨.layerCommon, "common", 1, ""⟩, none⟩ := by
      unfold dialectFSBuilder.buildCommonLayer
      dsimp only
      rw [hopenCommon]
      unfold dialectFSBuilder.collectLayer
      dsimp only
      decide
    have hclean : ∀ pr ∈ sortFS l, pr.2.isOk = true := by
      intro pr hpr
      have hmem : pr ∈ c1Fixture := hperm.subset ((sortFS_perm l).subset hpr)
      exact (by decide : ∀ q ∈ c1Fixture, q.2.isOk = true) pr hmem
    have hfiles : (sortFS l).filterMap
        (pickFile defaultDialectOptions "postgres" true) = [("b.up.sql", c1FileB)] := by
      apply List.perm_singleton.mp
      have hp := ((sortFS_perm l).trans hperm).filterMap
        (pickFile defaultDialectOptions "postgres" true)
      rw [show c1Fixture.filterMap (pickFile defaultDialectOptions "postgres" true) =
        [("b.up.sql", c1FileB)] from by decide] at hp
      exact hp
    have hcount : (sortFS l).countP (isSQLCandidate true) = 1 := by
      rw [((sortFS_perm l).trans hperm).countP_eq]
      decide
    have hroot : dialectFSBuilder.buildRootLayer
        ⟨l, "postgres", defaultDialectOptions⟩ =
        ⟨some [("b.up.sql", c1FileB)], ⟨.layerRoot, "root", 1, ""⟩, none⟩ := by
      unfold dialectFSBuilder.buildRootLayer dialectFSBuilder.collectLayer
      dsimp only
      unfold collectLayerCore
      rw [collectFilesCore_clean defaultDialectOptions "postgres" true (sortFS l)
        hclean, hfiles, hcount]
      decide
    have hsubPg : subFSGo l "postgres" = [("c.up.sql", Except.ok c1FileC)] := by
      apply List.perm_singleton.mp
      have hp := subFSGo_perm l c1Fixture hperm "postgres"
      rw [show subFSGo c1Fixture "postgres" = [("c.up.sql", Except.ok c1FileC)]
        from by decide] at hp
      exact hp
    have hopenPg : openSubFS l "postgres" =
        some [("c.up.sql", Except.ok c1FileC)] := by
      unfold openSubFS
      rw [if_neg (by decide), hasDirGo_perm l c1Fixture hperm,
        if_pos (show hasDirGo c1Fixture "postgres" = true from by decide), hsubPg]
    have hcoll : dialectFSBuilder.collectLayer ⟨l, "postgres", defaultDialectOptions⟩
        [("c.up.sql", Except.ok c1FileC)] .layerDialect "postgres" false =
        ⟨some [("c.up.sql", c1FileC)], ⟨.layerDialect, "postgres", 1, ""⟩, none⟩ := by
      unfold dialectFSBuilder.collectLayer
      dsimp only
      decide
    have hdial : dialectFSBuilder.buildDialectLayer
        ⟨l, "postgres", defaultDialectOptions⟩ =
        ⟨some [("c.up.sql", c1FileC)], ⟨.layerDialect, "postgres", 1, ""⟩, none⟩ := by
      unfold dialectFSBuilder.buildDialectLayer
      dsimp only
      rw [show defaultDialectOptions.candidateDirectories "postgres" =
        ["postgres", "postgresql", "pg", "pgdialect"] from by decide]
      unfold probeDialectDirs
      dsimp only
      rw [hopenPg]
      dsimp only
      rw [hcoll]
    have hbuild : dialectFSBuilder.build ⟨l, "postgres", defaultDialectOptions⟩ =
        (⟨"postgres",
          [[("a.up.sql", c1FileA)], [("b.up.sql", c1FileB)], [("c.up.sql", c1FileC)]],
          [⟨.layerCommon, "common", 1, ""⟩, ⟨.layerRoot, "root", 1, ""⟩,
           ⟨.layerDialect, "postgres", 1, ""⟩]⟩, none) := by
      unfold dialectFSBuilder.build
      simp only [hcommon, hroot, hdial]
      rfl
    exact ⟨hbuild, by rw [hbuild]; decide⟩

/-- Witness for C1 at the fixture itself. -/
theorem c1_witness :
    [(dialectFSBuilder.buildCommonLayer
        ⟨c1Fixture, "postgres", defaultDialectOptions⟩).diag,
     (dialectFSBuilder.buildRootLayer
        ⟨c1Fixture, "postgres", defaultDialectOptions⟩).diag,
     (dialectFSBuilder.buildDialectLayer
        ⟨c1Fixture, "postgres", defaultDialectOptions⟩).diag] =
      [⟨.layerCommon, "common", 1, ""⟩, ⟨.layerRoot, "root", 1, ""⟩,
       ⟨.layerDialect, "postgres", 1, ""⟩] ∧
    resultFiles (dialectFSBuilder.build
      ⟨c1Fixture, "postgres", defaultDialectOptions⟩).1 =
      ["a.up.sql", "b.up.sql", "c.up.sql"] :=
  ⟨((c1_build_order.1 ⟨c1Fixture, "postgres", defaultDialectOptions⟩
      ⟨"postgres",
        [[("a.up.sql", c1FileA)], [("b.up.sql", c1FileB)], [("c.up.sql", c1FileC)]],
        [⟨.layerCommon, "common", 1, ""⟩, ⟨.layerRoot, "root", 1, ""⟩,
         ⟨.layerDialect, "postgres", 1, ""⟩]⟩
      ((c1_build_order.2 c1Fixture (List.Perm.refl _)).1)).1).symm.trans (by decide),
   (c1_build_order.2 c1Fixture (List.Perm.refl _)).2⟩

/-! ### Candidate directory lists (C8) -/

theorem addCandidateDir_cases (dirs : List String) (v : String) :
    addCandidateDir dirs v = dirs ∨
      addCandidateDir dirs v = dirs ++ [trimGo v] := by
  unfold addCandidateDir
  by_cases h1 : v = ""
  · left
    rw [if_pos h1]
  · rw [if_neg h1]
    dsimp only
    by_cases h2 : trimGo v = ""
    · left
      rw [if_pos h2]
    · rw [if_neg h2]
      by_cases h3 : trimGo v ∈ dirs
      · left
        rw [if_pos h3]
      · right
        rw [if_neg h3]

theorem addCandidateDir_mem (dirs : List String) (v x : String) :
    x ∈ addCandidateDir dirs v ↔
      (x ∈ dirs ∨ (x = trimGo v ∧ trimGo v ≠ "")) := by
  unfold addCandidateDir
  by_cases h1 : v = ""
  · rw [if_pos h1]
    subst h1
    simp [show trimGo "" = "" from rfl]
  · rw [if_neg h1]
    dsimp only
    by_cases h2 : trimGo v = ""
    · rw [if_pos h2]
      simp [h2]
    · rw [if_neg h2]
      by_cases h3 : trimGo v ∈ dirs
      · rw [if_pos h3]
        constructor
        · intro h
          exact Or.inl h
        · rintro (h | ⟨rfl, -⟩)
          · exact h
          · exact h3
      · rw [if_neg h3]
        simp [List.mem_append, h2]

theorem addCandidateDir_nodup (dirs : List String) (v : String)
    (h : dirs.Nodup) : (addCandidateDir dirs v).Nodup := by
  unfold addCandidateDir
  by_cases h1 : v = ""
  · rw [if_pos h1]; exact h
  · rw [if_neg h1]
    dsimp only
    by_cases h2 : trimGo v = ""
    · rw [if_pos h2]; exact h
    · rw [if_neg h2]
      by_cases h3 : trimGo v ∈ dirs
      · rw [if_pos h3]; exact h
      · rw [if_neg h3]
        simp [List.nodup_append, h, h3]

theorem candFold_head (canonical : String) (enum : List (String × String))
    (dirs : List String) (h : dirs ≠ []) :
    (enum.foldl
      (fun dirs kv => if kv.2 = canonical then addCandidateDir dirs kv.1 else dirs)
      dirs).head? = dirs.head? := by
  induction enum generalizing dirs with
  | nil => rfl
  | cons kv rest ih =>
    rw [List.foldl_cons]
    by_cases hc : kv.2 = canonical
    · rw [if_pos hc]
      rcases addCandidateDir_cases dirs kv.1 with he | he
      · rw [he]
        exact ih dirs h
      · rw [he, ih (dirs ++ [trimGo kv.1]) (by simp)]
        cases dirs with
        | nil => exact absurd rfl h
        | cons a as => rfl
    · rw [if_neg hc]
      exact ih dirs h

theorem candFold_nodup (canonical : String) (enum : List (String × String))
    (dirs : List String) (h : dirs.Nodup) :
    (enum.foldl
      (fun dirs kv => if kv.2 = canonical then addCandidateDir dirs kv.1 else dirs)
      dirs).Nodup := by
  induction enum generalizing dirs with
  | nil => exact h
  | cons kv rest ih =>
    rw [List.foldl_cons]
    by_cases hc : kv.2 = canonical
    · rw [if_pos hc]
      exact ih _ (addCandidateDir_nodup dirs kv.1 h)
    · rw [if_neg hc]
      exact ih dirs h

theorem candFold_mem (canonical : String) (enum : List (String × String))
    (dirs : List String) (x : String) :
    (x ∈ enum.foldl
      (fun dirs kv => if kv.2 = canonical then addCandidateDir dirs kv.1 else dirs)
      dirs) ↔
      (x ∈ dirs ∨ ∃ kv ∈ enum, kv.2 = canonical ∧ trimGo kv.1 = x ∧ x ≠ "") := by
  induction enum generalizing dirs with
  | nil => simp
  | cons kv rest ih =>
    rw [List.foldl_cons]
    by_cases hc : kv.2 = canonical
    · rw [if_pos hc, ih, addCandidateDir_mem]
      constructor
      · rintro ((h | ⟨rfl, hne⟩) | ⟨kv', hkv', hcond⟩)
        · exact Or.inl h
        · exact Or.inr ⟨kv, List.mem_cons_self _ _, hc, rfl, hne⟩
        · exact Or.inr ⟨kv', List.mem_cons_of_mem _ hkv', hcond⟩
      · rintro (h | ⟨kv', hkv', h1, h2, h3⟩)
        · exact Or.inl (Or.inl h)
        · rcases List.mem_cons.mp hkv' with rfl | hmem
          · exact Or.inl (Or.inr ⟨h2.symm, h2 ▸ h3⟩)
          · exact Or.inr ⟨kv', hmem, h1, h2, h3⟩
    · rw [if_neg hc, ih]
      constructor
      · rintro (h | ⟨kv', hkv', hcond⟩)
        · exact Or.inl h
        · exact Or.inr ⟨kv', List.mem_cons_of_mem _ hkv', hcond⟩
      · rintro (h | ⟨kv', hkv', h1, h2, h3⟩)
        · exact Or.inl h
        · rcases List.mem_cons.mp hkv' with rfl | hmem
          · exact absurd h1 hc
          · exact Or.inr ⟨kv', hmem, h1, h2, h3⟩

/-- The default table's entries in another order Go's map range may
deliver: "pg" enumerated before "postgresql". -/
def c8EnumB : List (String × String) :=
  [("postgres", "postgres"), ("pg", "postgres"), ("postgresql", "postgres"),
   ("pgdialect", "postgres"), ("sqlite", "sqlite"), ("sqlite3", "sqlite"),
   ("sqldialect", "sqlite")]

/-- C8 fails as stated: both enumerations are permutations of the same
default table, yet the two calls return differently ordered lists, because
Go randomizes map iteration order. -/
theorem c8_counterexample :
    c8EnumB.Perm defaultDialectOptions.aliases ∧
    candidateDirsEnum defaultDialectOptions defaultDialectOptions.aliases
      "postgres" = ["postgres", "postgresql", "pg", "pgdialect"] ∧
    candidateDirsEnum defaultDialectOptions c8EnumB "postgres" =
      ["postgres", "pg", "postgresql", "pgdialect"] ∧
    candidateDirsEnum defaultDialectOptions defaultDialectOptions.aliases
        "postgres" ≠
      candidateDirsEnum defaultDialectOptions c8EnumB "postgres" := by
  refine ⟨?_, by decide, by decide, by decide⟩
  have : defaultDialectOptions.aliases = defaultDialectAliases := by decide
  rw [this]
  exact List.Perm.cons _ (List.Perm.swap _ _ _)

/-- C8 (amended): for every enumeration order of the alias table,
candidateDirectories returns the canonical name first followed by the
aliases that map to it (trimmed, empties dropped, de-duplicated, no
duplicates in the result); for every default pair (alias, canonical) the
result for the canonical contains both, canonical first; but the relative
order of the aliases depends on the enumeration order of the Go map, which
is unspecified, so two calls need not agree beyond this. -/
theorem c8_candidate_dirs_amended :
    (∀ (o : dialectOptions) (enum : List (String × String)) (name : String),
      trimGo (o.normalize name) = o.normalize name → o.normalize name ≠ "" →
      (candidateDirsEnum o enum name).head? = some (o.normalize name)) ∧
    (∀ (o : dialectOptions) (enum : List (String × String)) (name : String),
      (candidateDirsEnum o enum name).Nodup) ∧
    (∀ (o : dialectOptions) (enum : List (String × String)) (name x : String),
      o.normalize name ≠ "" →
      (x ∈ candidateDirsEnum o enum name ↔
        (x ∈ addCandidateDir [] (o.normalize name) ∨
          ∃ kv ∈ enum, kv.2 = o.normalize name ∧ trimGo kv.1 = x ∧ x ≠ ""))) ∧
    (defaultDialectAliases.all fun kv =>
      (defaultDialectOptions.candidateDirectories kv.2).contains kv.1 &&
        ((defaultDialectOptions.candidateDirectories kv.2).head? ==
          some kv.2)) = true := by
  refine ⟨?_, ?_, ?_, by decide⟩
  · intro o enum name htrim hne
    unfold candidateDirsEnum
    rw [if_neg hne]
    have hadd : addCandidateDir [] (o.normalize name) = [o.normalize name] := by
      unfold addCandidateDir
      rw [if_neg hne]
      dsimp only
      rw [htrim, if_neg hne, if_neg (List.not_mem_nil _)]
      rfl
    rw [hadd, candFold_head (o.normalize name) enum [o.normalize name] (by simp)]
    rfl
  · intro o enum name
    unfold candidateDirsEnum
    by_cases hne : o.normalize name = ""
    · rw [if_pos hne]
      exact List.nodup_nil
    · rw [if_neg hne]
      exact candFold_nodup _ enum _
        (addCandidateDir_nodup [] _ List.nodup_nil)
  · intro o enum name x hne
    unfold candidateDirsEnum
    rw [if_neg hne]
    exact candFold_mem (o.normalize name) enum _ x

/-- Witness for C8 (amended) on the default table. -/
theorem c8_witness :
    (candidateDirsEnum defaultDialectOptions defaultDialectOptions.aliases
      "postgres").head? = some "postgres" ∧
    ("pg" ∈ candidateDirsEnum defaultDialectOptions defaultDialectOptions.aliases
      "postgres") :=
  ⟨(c8_candidate_dirs_amended.1 defaultDialectOptions
      defaultDialectOptions.aliases "postgres" (by decide) (by decide)).trans
    (by decide),
   (c8_candidate_dirs_amended.2.2.1 defaultDialectOptions
      defaultDialectOptions.aliases "postgres" "pg" (by decide)).mpr
    (Or.inr ⟨("pg", "postgres"), by decide, by decide, by decide, by decide⟩)⟩
